import Mathlib

/-!
Verification of the libvgio core: the type-tagged grouped message framing
(MessageEmitter / MessageIterator), the registry tag rules, the BGZF input
adapter construction, the stream multiplexer breakpoint logic, and the
parallel batch pipeline accounting.

Byte streams are modelled as `List Nat` of octet values.  Protobuf varints
follow the CodedOutputStream / CodedInputStream wire behaviour: little-endian
base-128 groups, writers truncate to the declared width, readers accept up to
ten bytes and truncate the accumulated value to the declared width.
-/

namespace VGio

/-- Worker for the varint encoder, structurally recursive on a fuel that
always suffices (the encoding of n has at most n + 1 bytes). -/
def encodeVarintAux : Nat → Nat → List Nat
  | 0, _ => []
  | fuel + 1, n =>
    if n < 128 then [n] else (n % 128 + 128) :: encodeVarintAux fuel (n / 128)

/-- Little-endian base-128 varint encoding, as produced by protobuf
CodedOutputStream WriteVarint32 / WriteVarint64 (minimal encoding). -/
def encodeVarint (n : Nat) : List Nat :=
  encodeVarintAux (n + 1) n

/-- Varint parser core, as in protobuf CodedInputStream: reads base-128
groups, at most `fuel` bytes (protobuf allows up to 10); fails if the buffer
ends or the byte allowance runs out before a terminating byte (< 128). -/
def readVarintAux : Nat → List Nat → Option (Nat × List Nat)
  | 0, _ => none
  | _ + 1, [] => none
  | fuel + 1, b :: rest =>
    if b < 128 then some (b, rest)
    else
      match readVarintAux fuel rest with
      | some (v, rem) => some (b % 128 + 128 * v, rem)
      | none => none

/-- CodedInputStream ReadVarint64: up to 10 bytes, value truncated to 64 bits. -/
def readVarint64 (bytes : List Nat) : Option (Nat × List Nat) :=
  (readVarintAux 10 bytes).map (fun p => (p.1 % 2 ^ 64, p.2))

/-- CodedInputStream ReadVarint32: also reads up to 10 wire bytes, but the
accumulated value is truncated to 32 bits. -/
def readVarint32 (bytes : List Nat) : Option (Nat × List Nat) :=
  (readVarintAux 10 bytes).map (fun p => (p.1 % 2 ^ 32, p.2))

/-- CodedOutputStream WriteVarint64: the argument is a uint64. -/
def writeVarint64 (n : Nat) : List Nat := encodeVarint (n % 2 ^ 64)

/-- CodedOutputStream WriteVarint32: the argument is a uint32. -/
def writeVarint32 (n : Nat) : List Nat := encodeVarint (n % 2 ^ 32)

namespace Registry

/-- registry.hpp: maximum tag length enforced at registration and on lookup. -/
def MAX_TAG_LENGTH : Nat := 25

/-- Modelled from the spec: registry.cpp (which holds the registration tables
and the body of is_valid_tag) is not under src/.  Per the spec, a tag is
valid iff it has been registered, so the registry is modelled as the list of
registered tags and validity as membership. -/
def is_valid_tag (reg : List (List Nat)) (tag : List Nat) : Bool :=
  reg.contains tag

/-- registry.hpp check_protobuf_tag: the empty tag is always accepted (old
tagless files); tags over MAX_TAG_LENGTH are rejected; a tag with a
registered Protobuf type matches iff that type is the requested one;
otherwise the tag must equal the full name of the requested type.  Protobuf
types are modelled by numeric identifiers with their full names given by a
function. -/
def check_protobuf_tag (tag_to_protobuf : List (List Nat × Nat))
    (full_name : Nat → List Nat) (M : Nat) (tag : List Nat) : Bool :=
  if tag = [] then true
  else if tag.length > MAX_TAG_LENGTH then false
  else
    match List.lookup tag tag_to_protobuf with
    | some ty => ty == M
    | none => tag == full_name M

end Registry

namespace MessageEmitter

/-- message_emitter.cpp: limit on the size of a single serialized message. -/
def MAX_MESSAGE_SIZE : Nat := 1000000000

/-- The buffering state of a MessageEmitter: the tag of the group being
buffered (empty when nothing is buffered), the buffered messages, and the
max_group_size configuration. -/
structure State where
  group_tag : List Nat
  group : List (List Nat)
  max_group_size : Nat
  deriving DecidableEq, Repr

/-- A fresh MessageEmitter buffers nothing. -/
def init (max_group_size : Nat) : State :=
  { group_tag := [], group := [], max_group_size := max_group_size }

/-- The wire bytes written for one buffered group (the body of emit_group):
the count varint64 (messages plus one for the tag), the tag length varint32
and tag bytes, then each message prefixed by its length varint32. -/
def groupWire (tag : List Nat) (msgs : List (List Nat)) : List Nat :=
  writeVarint64 (msgs.length + 1) ++ writeVarint32 tag.length ++ tag ++
    msgs.flatMap (fun m => writeVarint32 m.length ++ m)

/-- emit_group: returns early, writing nothing and leaving the state alone,
when the buffered tag is empty; otherwise writes the group and clears both
the buffer and the tag. -/
def emit_group (s : State) : List Nat × State :=
  if s.group_tag = [] then ([], s)
  else (groupWire s.group_tag s.group, { s with group := [], group_tag := [] })

/-- write(tag): emits the buffered group when the buffer is over
max_group_size or the tag changed, then adopts the new tag when it differs
from the (possibly just cleared) buffered tag. -/
def write (s : State) (tag : List Nat) : List Nat × State :=
  let r := if s.group.length ≥ s.max_group_size ∨ tag ≠ s.group_tag
           then emit_group s else ([], s)
  if tag ≠ r.2.group_tag then (r.1, { r.2 with group_tag := tag }) else r

/-- write(tag, message) / write_copy(tag, message): ensures the group is for
the tag, appends the message to the buffer, and only then checks the size,
throwing (the Bool result) when the message exceeds MAX_MESSAGE_SIZE.  The
oversized message stays in the buffer. -/
def write_copy (s : State) (tag msg : List Nat) : List Nat × State × Bool :=
  let r := write s tag
  let s2 := { r.2 with group := r.2.group ++ [msg] }
  (r.1, s2, decide (msg.length > MAX_MESSAGE_SIZE))

/-- Emit a run of write(tag, message) calls for one group.  The Bool output
accumulates whether any call threw. -/
def writeAll (s : State) (tag : List Nat) : List (List Nat) → List Nat × State × Bool
  | [] => ([], s, false)
  | m :: ms =>
    let r := write_copy s tag m
    let rest := writeAll r.2.1 tag ms
    (r.1 ++ rest.1, rest.2.1, r.2.2 || rest.2.2)

/-- Encode one group through the emitter: write(tag) to open it, write each
message, then emit_group. -/
def emitOneGroup (s : State) (tag : List Nat) (msgs : List (List Nat)) :
    List Nat × State × Bool :=
  let r0 := write s tag
  let r1 := writeAll r0.2 tag msgs
  let r2 := emit_group r1.2.1
  (r0.1 ++ r1.1 ++ r2.1, r2.2, r1.2.2)

/-- Encode a sequence of groups through one emitter. -/
def emitGroups (s : State) : List (List Nat × List (List Nat)) → List Nat × State × Bool
  | [] => ([], s, false)
  | g :: gs =>
    let r := emitOneGroup s g.1 g.2
    let rest := emitGroups r.2.1 gs
    (r.1 ++ rest.1, rest.2.1, r.2.2 || rest.2.2)

/-- Encoding a group sequence with the group emitter, starting from a fresh
emitter with the given max_group_size. -/
def encode (max_group_size : Nat) (G : List (List Nat × List (List Nat))) :
    List Nat × State × Bool :=
  emitGroups (init max_group_size) G

/-- The plain concatenation of the wire encodings of a group sequence. -/
def wire (G : List (List Nat × List (List Nat))) : List Nat :=
  G.flatMap (fun g => groupWire g.1 g.2)

end MessageEmitter

namespace MessageIterator

/-- message_iterator.hpp: limit on the size of a single message. -/
def MAX_MESSAGE_SIZE : Nat := 1000000000

/-- A decoded item: the pair of a tag and optional message data produced by
one increment of the iterator. -/
abbrev TaggedMessage := List Nat × Option (List Nat)

/-- The tag-vs-message decision of operator++: the first string of a group is
a tag iff it equals the non-empty cached previous tag, or the registry holds
it as a valid tag. -/
def isTagDecision (previous_tag tag : List Nat) (reg : List (List Nat)) : Bool :=
  (decide (previous_tag ≠ []) && previous_tag == tag) || Registry.is_valid_tag reg tag

/-- Read `k` successive messages of the current group, as the message branch
of operator++ does per increment: a varint32 size (failure to read it is a
fatal format error), the MAX_MESSAGE_SIZE check, then the message bytes.
Each yields the pair of the cached previous tag and the message. -/
def readMessages (tag : List Nat) : Nat → List Nat →
    Except String (List TaggedMessage × List Nat)
  | 0, bytes => Except.ok ([], bytes)
  | k + 1, bytes =>
    match readVarint32 bytes with
    | none => Except.error "corrupt input at message"
    | some (msgSize, rest) =>
      if msgSize > MAX_MESSAGE_SIZE then Except.error "message too long"
      else if msgSize ≤ rest.length then
        match readMessages tag k (rest.drop msgSize) with
        | Except.ok (ps, rem) => Except.ok ((tag, some (rest.take msgSize)) :: ps, rem)
        | Except.error e => Except.error e
      else Except.error "corrupt input at message"

/-- The sequence of items produced by repeatedly incrementing a
MessageIterator over the byte stream, with `prev` the cached previous tag.
Per group (the header branch of operator++): a failed count varint read ends
the iteration cleanly; a failed tag read is fatal; the first string is a tag
iff it equals the non-empty cached tag or the registry holds it; a tag-only
group (count 1) yields the pair of the tag and no data; otherwise the
remaining count-minus-one strings are messages.  When the first string is
not a tag it is itself the first message of a group with the empty tag and
the cached tag is cleared.  A zero count makes the iterator treat the whole
remaining stream as messages of an exhausted group, which always ends in a
failed read on a finite stream; it is modelled as an immediate format
error.  `fuel` decreases once per group; the top-level wrapper supplies
more fuel than any stream can consume. -/
def decodeGroups (reg : List (List Nat)) :
    Nat → List Nat → List Nat → Except String (List TaggedMessage)
  | 0, _, _ => Except.error "fuel exhausted"
  | fuel + 1, prev, bytes =>
    match readVarint64 bytes with
    | none => Except.ok []
    | some (count, r1) =>
      match readVarint32 r1 with
      | none => Except.error "corrupt input at group"
      | some (tagSize, r2) =>
        if tagSize > MAX_MESSAGE_SIZE then Except.error "tag too long"
        else if tagSize ≤ r2.length then
          let tag := r2.take tagSize
          let r3 := r2.drop tagSize
          if isTagDecision prev tag reg then
            if count = 1 then
              (decodeGroups reg fuel tag r3).map (fun tail => (tag, none) :: tail)
            else if count = 0 then Except.error "zero count group"
            else
              match readMessages tag (count - 1) r3 with
              | Except.ok (ps, rem) =>
                (decodeGroups reg fuel tag rem).map (fun tail => ps ++ tail)
              | Except.error e => Except.error e
          else
            if count = 0 then Except.error "zero count group"
            else
              match readMessages [] (count - 1) r3 with
              | Except.ok (ps, rem) =>
                (decodeGroups reg fuel [] rem).map (fun tail => ([], some tag) :: ps ++ tail)
              | Except.error e => Except.error e
        else Except.error "corrupt input at group"

/-- Decode a whole stream: fresh iterators start with an empty cached tag.
Every group consumes at least one byte, so the fuel suffices. -/
def decode (reg : List (List Nat)) (bytes : List Nat) :
    Except String (List TaggedMessage) :=
  decodeGroups reg (bytes.length + 1) [] bytes

/-- A C++ istream over binary data: the bytes and the read position. -/
structure CppStream where
  data : List Nat
  pos : Nat
  deriving DecidableEq, Repr

/-- How many characters sniff_tag tries to sniff: a 64-bit varint, a 32-bit
varint, and a maximum-length tag. -/
def to_sniff : Nat := 10 + 5 + Registry.MAX_TAG_LENGTH

/-- The buffer sniff_tag fills: up to to_sniff bytes from the current
position (stopping early at EOF). -/
def sniff_window (st : CppStream) : List Nat :=
  (st.data.drop st.pos).take to_sniff

/-- The parsing phase of sniff_tag over the sniffed buffer: a count varint64
that must be at least 1, a tag-length varint32 that must be nonzero and at
most MAX_TAG_LENGTH, the full tag bytes, and a registry check; any failure
yields the empty string. -/
def sniff_parse (reg : List (List Nat)) (buffer : List Nat) : List Nat :=
  match readVarint64 buffer with
  | none => []
  | some (group_count, r1) =>
    if group_count < 1 then []
    else
      match readVarint32 r1 with
      | none => []
      | some (tag_size, r2) =>
        if tag_size = 0 ∨ tag_size > Registry.MAX_TAG_LENGTH then []
        else if tag_size ≤ r2.length then
          if Registry.is_valid_tag reg (r2.take tag_size) then r2.take tag_size else []
        else []

/-- sniff_tag(istream): reads up to to_sniff characters into a buffer, ungets
every one of them (restoring the stream position), and parses the buffer.
Returns the sniffed tag together with the stream as the call leaves it. -/
def sniff_tag (reg : List (List Nat)) (st : CppStream) : List Nat × CppStream :=
  let buffer := sniff_window st
  let consumed : CppStream := { st with pos := st.pos + buffer.length }
  let ungot : CppStream := { consumed with pos := consumed.pos - buffer.length }
  (sniff_parse reg buffer, ungot)

/-- Claim wording for C3, for comparison with sniff_tag: a byte sequence is
well-formed type-tagged data when the count varint parses with value at
least 1, the tag-length varint parses with value between 1 and
MAX_TAG_LENGTH, and the full tag is present. -/
def claimWellFormed (bytes : List Nat) : Bool :=
  match readVarint64 bytes with
  | none => false
  | some (count, r1) =>
    decide (1 ≤ count) &&
      match readVarint32 r1 with
      | none => false
      | some (ts, r2) =>
        decide (1 ≤ ts) && decide (ts ≤ Registry.MAX_TAG_LENGTH) && decide (ts ≤ r2.length)

/-- Claim wording for C3: the tag of the first group of a well-formed
stream. -/
def claimFirstTag (bytes : List Nat) : List Nat :=
  match readVarint64 bytes with
  | none => []
  | some (_, r1) =>
    match readVarint32 r1 with
    | none => []
    | some (ts, r2) => r2.take ts

/-- The BlockedGzipInputStream under a MessageIterator, as the iterator sees
it: the logical decompressed byte sequence, the read position, and whether
virtual offsets are known (know_offset).  Tell reports the position when
offsets are known and -1 otherwise; Seek fails when they are not known.
Positions stand in for virtual offsets. -/
structure BGZFStream where
  data : List Nat
  pos : Nat
  seekable : Bool
  deriving DecidableEq, Repr

/-- BlockedGzipInputStream Tell. -/
def BGZFStream.Tell (st : BGZFStream) : Int :=
  if st.seekable then (st.pos : Int) else -1

/-- BlockedGzipInputStream Seek: none models returning false. -/
def BGZFStream.Seek (st : BGZFStream) (vo : Int) : Option BGZFStream :=
  if st.seekable then some { st with pos := vo.toNat } else none

/-- The bytes remaining to be read. -/
def BGZFStream.rest (st : BGZFStream) : List Nat := st.data.drop st.pos

/-- Read a varint64 through the stream, advancing past the consumed bytes. -/
def BGZFStream.readVarint64St (st : BGZFStream) : Option (Nat × BGZFStream) :=
  (readVarint64 st.rest).map
    (fun p => (p.1, { st with pos := st.pos + (st.rest.length - p.2.length) }))

/-- Read a varint32 through the stream, advancing past the consumed bytes. -/
def BGZFStream.readVarint32St (st : BGZFStream) : Option (Nat × BGZFStream) :=
  (readVarint32 st.rest).map
    (fun p => (p.1, { st with pos := st.pos + (st.rest.length - p.2.length) }))

/-- CodedInputStream ReadString through the stream: exactly n bytes. -/
def BGZFStream.readBytes (st : BGZFStream) (n : Nat) : Option (List Nat × BGZFStream) :=
  if n ≤ st.rest.length then some (st.rest.take n, { st with pos := st.pos + n })
  else none

/-- The full state of a MessageIterator: the current tagged value, the cached
previous tag, the message count and index within the current group, the
group and item virtual offsets, and the owned BGZF stream. -/
structure Iter where
  value : TaggedMessage
  previous_tag : List Nat
  group_count : Nat
  group_idx : Nat
  group_vo : Int
  item_vo : Int
  bgzip_in : BGZFStream
  deriving DecidableEq, Repr

/-- The message branch of operator++ (one message of the current group): read
the size varint32 (failure is fatal), check it against MAX_MESSAGE_SIZE,
read the message bytes, pair the message with the cached previous tag, and
advance the index.  item_vo counts up when the stream is untellable. -/
def readMessageStep (s : Iter) : Except String Iter :=
  let ivo : Int := if s.bgzip_in.Tell = -1 then s.item_vo + 1 else s.bgzip_in.Tell
  match s.bgzip_in.readVarint32St with
  | none => Except.error "corrupt input at message"
  | some (msgSize, st1) =>
    if msgSize > MAX_MESSAGE_SIZE then Except.error "message too long"
    else
      match st1.readBytes msgSize with
      | none => Except.error "corrupt input at message"
      | some (msg, st2) =>
        Except.ok { s with value := (s.previous_tag, some msg), item_vo := ivo,
                           group_idx := s.group_idx + 1, bgzip_in := st2 }

/-- One increment of the iterator (operator++).  When the current group is
exhausted, the header branch runs: record the group start offset (or bump
the group counter when untellable), reset the index, read the count varint64
(failure ends the iteration, matching the end iterator), read the tag
(failures are fatal), and apply the tag decision; a non-tag first string
becomes the first message of an empty-tag group and clears the cached tag; a
tag-only group yields the tag with no data; otherwise the cached tag is set
and the first message is read.  The body of the header while-loop returns on
every path or falls through to the message read exactly once.  The stream
positions stand in for the virtual offsets the C++ reads at the same
points. -/
def step (reg : List (List Nat)) (s : Iter) : Except String Iter :=
  if s.group_count = s.group_idx then
    let gvo : Int := if s.bgzip_in.Tell = -1 then s.group_vo + 1 else s.bgzip_in.Tell
    match s.bgzip_in.readVarint64St with
    | none =>
      Except.ok { s with group_vo := -1, item_vo := -1, value := ([], none), group_idx := 0 }
    | some (count, st1) =>
      let ivo : Int := if st1.Tell = -1 then s.item_vo + 1 else st1.Tell
      match st1.readVarint32St with
      | none => Except.error "corrupt input at group"
      | some (tagSize, st2) =>
        if tagSize > MAX_MESSAGE_SIZE then Except.error "tag too long"
        else
          match st2.readBytes tagSize with
          | none => Except.error "corrupt input at group"
          | some (tag, st3) =>
            if isTagDecision s.previous_tag tag reg then
              if count = 1 then
                Except.ok { value := (tag, none), previous_tag := tag, group_count := count,
                            group_idx := 1, group_vo := gvo, item_vo := ivo, bgzip_in := st3 }
              else
                readMessageStep { value := (tag, none), previous_tag := tag, group_count := count,
                                  group_idx := 1, group_vo := gvo, item_vo := ivo, bgzip_in := st3 }
            else
              Except.ok { value := ([], some tag), previous_tag := [], group_count := count,
                          group_idx := 1, group_vo := gvo, item_vo := ivo, bgzip_in := st3 }
  else readMessageStep s

/-- seek_group: negative offsets are refused; seeking to the current group
start at index 0 is a no-op; otherwise the underlying BGZF is sought (false
when it cannot seek), the group state is reset, and the iterator advances to
read the group at the target.  The cached previous_tag is carried into the
advance unchanged. -/
def seek_group (reg : List (List Nat)) (s : Iter) (virtual_offset : Int) :
    Except String (Bool × Iter) :=
  if virtual_offset < 0 then Except.ok (false, s)
  else if s.group_idx = 0 ∧ s.group_vo = virtual_offset then Except.ok (true, s)
  else
    match s.bgzip_in.Seek virtual_offset with
    | none => Except.ok (false, s)
    | some st1 =>
      match step reg { s with bgzip_in := st1, group_count := 0, group_idx := 0 } with
      | Except.ok s2 => Except.ok (true, s2)
      | Except.error e => Except.error e

end MessageIterator

namespace ForEachParallel

/-- include/vg/io/stream.hpp for_each_parallel_impl: the hard ceiling on the
adaptive cap (1 shifted left by 13). -/
def max_max_batches_outstanding : Nat := 8192

/-- The batch-accounting state of for_each_parallel_impl. -/
structure PipelineState where
  max_batches_outstanding : Nat
  batches_outstanding : Nat
  deriving DecidableEq, Repr

/-- The state at the top of for_each_parallel_impl: the adaptive cap starts
at 256 and no batches are outstanding. -/
def initPipeline : PipelineState := { max_batches_outstanding := 256, batches_outstanding := 0 }

/-- The accounting after the main thread processed a batch inline
(back-pressure path): batches_outstanding is decremented, and the cap
doubles when the decremented count times 4 over 3 is below the cap, the cap
is below the ceiling, and the inline processing was not caused by the
single-threaded predicate. -/
def finish_inline_batch (s : PipelineState) (do_single_threaded : Bool) : PipelineState :=
  let b := s.batches_outstanding - 1
  { batches_outstanding := b,
    max_batches_outstanding :=
      if 4 * b / 3 < s.max_batches_outstanding ∧
         s.max_batches_outstanding < max_max_batches_outstanding ∧
         do_single_threaded = false
      then s.max_batches_outstanding * 2
      else s.max_batches_outstanding }

/-- A run of inline batch completions from the initial state; the flags say
whether each completion was forced by the single-threaded predicate.  The
cap is modified nowhere else in for_each_parallel_impl. -/
def runInlineBatches (flags : List Bool) : PipelineState :=
  flags.foldl finish_inline_batch initPipeline

/-- The message-consuming loop of for_each_parallel_impl, restricted to its
tag policy: each item from the iterator has its tag checked; a failed check
on the very first item is a fatal error, later failed checks skip the item;
items that pass contribute their data (when present) in order. -/
def take_loop (check : List Nat → Bool) :
    Bool → List (List Nat × Option (List Nat)) → Except String (List (List Nat))
  | _, [] => Except.ok []
  | first_message, (tag, data) :: rest =>
    if check tag = false then
      if first_message then Except.error "expected a stream of the requested type"
      else take_loop check false rest
    else
      match data with
      | some m =>
        match take_loop check false rest with
        | Except.ok l => Except.ok (m :: l)
        | Except.error e => Except.error e
      | none => take_loop check false rest

end ForEachParallel

namespace StreamMultiplexer

/-- stream_multiplexer.cpp: do not queue anything smaller than a few BGZF
blocks. -/
def MIN_QUEUE_ITEM_BYTES : Nat := 10 * 64 * 1024

/-- stream_multiplexer.cpp: slots per ring buffer (one is left empty). -/
def RING_BUFFER_SIZE : Nat := 10

/-- The per-producer state: the in-progress buffer (the first tellp bytes of
the stringstream), the breakpoint cursor, the queued items in FIFO order,
and the queued byte count. -/
structure ProducerState where
  current_buffer : List Nat
  breakpoint_cursor : Nat
  ring : List (List Nat)
  queued_bytes : Nat
  deriving DecidableEq, Repr

/-- register_breakpoint: with at least MIN_QUEUE_ITEM_BYTES pending, the
buffer contents are pushed as one item onto the ring and the buffer and
cursor are reset; otherwise only the cursor is moved to the current length.
The C++ call blocks (unlock, yield, relock) while the ring is full and
completes the push once a slot frees; the transition models the completed
call. -/
def register_breakpoint (s : ProducerState) : ProducerState :=
  if MIN_QUEUE_ITEM_BYTES ≤ s.current_buffer.length then
    { current_buffer := [], breakpoint_cursor := 0,
      ring := s.ring ++ [s.current_buffer],
      queued_bytes := s.queued_bytes + s.current_buffer.length }
  else
    { s with breakpoint_cursor := s.current_buffer.length }

end StreamMultiplexer

namespace BlockedGzipInputStream

/-- What the constructor observes about the wrapped istream: whether tellg
succeeded and the stream was good (seekable), the compression kind htslib
detects (0 plain, 1 unblocked gzip, 2 BGZF), and whether the conventional
empty terminator block ends the file. -/
structure SourceStream where
  seekable : Bool
  compression : Nat
  has_eof_block : Bool
  deriving DecidableEq, Repr

/-- Modelled from the spec: htslib bgzf_check_EOF is an external dependency;
per the spec it reports 2 when the backing stream is not seekable (the check
is impossible), otherwise 1 when the terminator block is present and 0 when
it is absent. -/
def bgzf_check_EOF (src : SourceStream) : Nat :=
  if src.seekable = false then 2
  else if src.has_eof_block then 1 else 0

/-- IsBGZF: compressed and not plain gzip. -/
def IsBGZF (src : SourceStream) : Bool := src.compression == 2

/-- MissingEOF: BGZF and the EOF check reports the marker absent. -/
def MissingEOF (src : SourceStream) : Bool :=
  IsBGZF src && (bgzf_check_EOF src == 0)

/-- The distinct error kind for truncated blocked-gzip input. -/
inductive BGZFError where
  | TruncatedBGZFError
  deriving DecidableEq, Repr

/-- A constructed reader: the source and whether virtual offsets are valid. -/
structure Handle where
  src : SourceStream
  know_offset : Bool
  deriving DecidableEq, Repr

/-- The constructor: computes know_offset (seekable and block-compressed or
uncompressed), then throws TruncatedBGZFError iff MissingEOF. -/
def construct (src : SourceStream) : Except BGZFError Handle :=
  let know_offset := src.seekable && (src.compression == 2 || src.compression == 0)
  if MissingEOF src then Except.error BGZFError.TruncatedBGZFError
  else Except.ok { src := src, know_offset := know_offset }

end BlockedGzipInputStream

/-- A stream whose first group is well-formed (the iterator reads it as one
registered tag-only group) but whose prologue spans 41 bytes: the count
varint 1 in a redundant 6-byte encoding, the tag-length varint 25 in a
redundant 10-byte encoding, then a 25-byte tag. -/
def c3stream : List Nat :=
  [0x81, 0x80, 0x80, 0x80, 0x80, 0x00] ++
    [0x99, 0x80, 0x80, 0x80, 0x80, 0x80, 0x80, 0x80, 0x80, 0x00] ++
    List.replicate 25 65

/-- A registry holding exactly the 25-byte tag of c3stream. -/
def c3registry : List (List Nat) := [List.replicate 25 65]

/-- An iterator state mid-file: the cached previous tag is the two-byte
string AB, the stream is seekable, and a group whose first string is also AB
starts at offset 0. -/
def c4state : MessageIterator.Iter :=
  { value := ([], none), previous_tag := [65, 66], group_count := 1, group_idx := 1,
    group_vo := 99, item_vo := 99,
    bgzip_in := { data := [1, 2, 65, 66], pos := 4, seekable := true } }

/-- An iterator state mid-file over a registry holding the one-byte tag V: a
tag-only group with that tag starts at offset 0. -/
def c4witness : MessageIterator.Iter :=
  { value := ([], none), previous_tag := [86], group_count := 1, group_idx := 1,
    group_vo := 5, item_vo := 5,
    bgzip_in := { data := [1, 1, 86], pos := 3, seekable := true } }

/-- Modelled from the spec: the BGZF container layer (an external htslib and
protobuf-gzip dependency) delivers to the reader exactly the byte sequence
the writer emitted, so both compress modes transport the framed bytes
unchanged. -/
def bgzfTransport (compress : Bool) (bytes : List Nat) : List Nat := bytes

/-- The item sequence a group sequence should decode back to: a tag-only
group becomes the pair of its tag and no data, every message becomes the
pair of its group tag and its data. -/
def taggedPairs (G : List (List Nat × List (List Nat))) :
    List MessageIterator.TaggedMessage :=
  G.flatMap (fun g =>
    if g.2.isEmpty then [(g.1, none)] else g.2.map (fun m => (g.1, some m)))

-- ========================================================================
-- Theorems
-- ========================================================================

theorem encodeVarintAux_fuel (n : Nat) :
    ∀ fuel, n < fuel → encodeVarintAux fuel n = encodeVarintAux (n + 1) n := by
  induction n using Nat.strong_induction_on with
  | _ n ih =>
    intro fuel hf
    obtain ⟨f, rfl⟩ : ∃ f, fuel = f + 1 := ⟨fuel - 1, by omega⟩
    rw [encodeVarintAux, encodeVarintAux]
    by_cases h : n < 128
    · simp [h]
    · simp only [h, if_false]
      have hd : n / 128 < n := Nat.div_lt_self (by omega) (by omega)
      congr 1
      rw [ih (n / 128) hd f (by omega), ih (n / 128) hd n hd]

/-- The defining recursion of the varint encoder. -/
theorem encodeVarint_eq (n : Nat) :
    encodeVarint n = if n < 128 then [n] else (n % 128 + 128) :: encodeVarint (n / 128) := by
  rw [encodeVarint, encodeVarintAux]
  by_cases h : n < 128
  · simp [h]
  · simp only [h, if_false]
    congr 1
    rw [encodeVarintAux_fuel (n / 128) n (Nat.div_lt_self (by omega) (by omega))]
    rfl

theorem encodeVarint_ne_nil (n : Nat) : encodeVarint n ≠ [] := by
  rw [encodeVarint_eq]
  split <;> simp

theorem encodeVarint_length_le (k : Nat) :
    ∀ n, n < 128 ^ (k + 1) → (encodeVarint n).length ≤ k + 1 := by
  induction k with
  | zero =>
    intro n hn
    rw [encodeVarint_eq]
    have : n < 128 := by simpa using hn
    simp [this]
  | succ k ih =>
    intro n hn
    rw [encodeVarint_eq]
    split
    · simp
    · have hdiv : n / 128 < 128 ^ (k + 1) := by
        apply Nat.div_lt_of_lt_mul
        rw [pow_succ, Nat.mul_comm] at hn
        exact hn
      simpa using Nat.succ_le_succ (ih (n / 128) hdiv)

theorem readVarintAux_encode (fuel : Nat) :
    ∀ n rest, (encodeVarint n).length ≤ fuel →
      readVarintAux fuel (encodeVarint n ++ rest) = some (n, rest) := by
  induction fuel with
  | zero =>
    intro n rest h
    exact absurd (Nat.le_zero.mp h) (by simpa using encodeVarint_ne_nil n)
  | succ fuel ih =>
    intro n rest h
    rw [encodeVarint_eq]
    by_cases hn : n < 128
    · simp [readVarintAux, hn]
    · have hrec : (encodeVarint (n / 128)).length ≤ fuel := by
        rw [encodeVarint_eq] at h
        simp [hn] at h
        omega
      have hb : ¬(n % 128 + 128 < 128) := by omega
      simp only [hn, if_false, List.cons_append, readVarintAux, hb, ih (n / 128) rest hrec]
      have hmd : n % 128 + 128 * (n / 128) = n := by omega
      simp [hmd]

theorem readVarint64_write (n : Nat) (rest : List Nat) (h : n < 2 ^ 64) :
    readVarint64 (writeVarint64 n ++ rest) = some (n, rest) := by
  have hlen : (encodeVarint n).length ≤ 10 := by
    have hp : n < 128 ^ 10 := by
      have h2 := h
      norm_num at h2 ⊢
      omega
    exact encodeVarint_length_le 9 n hp
  have hmod : n % 2 ^ 64 = n := Nat.mod_eq_of_lt h
  rw [writeVarint64, hmod, readVarint64, readVarintAux_encode 10 n rest hlen]
  simp only [Option.map_some']
  rw [hmod]

theorem readVarint32_write (n : Nat) (rest : List Nat) (h : n < 2 ^ 32) :
    readVarint32 (writeVarint32 n ++ rest) = some (n, rest) := by
  have hlen : (encodeVarint n).length ≤ 10 := by
    have hp : n < 128 ^ 10 := by
      have h2 := h
      norm_num at h2 ⊢
      omega
    exact encodeVarint_length_le 9 n hp
  have hmod : n % 2 ^ 32 = n := Nat.mod_eq_of_lt h
  rw [writeVarint32, hmod, readVarint32, readVarintAux_encode 10 n rest hlen]
  simp only [Option.map_some']
  rw [hmod]

/-- The first byte of a varint encoding: the value itself if it fits in one
byte, otherwise the low seven bits with the continuation bit set. -/
theorem encodeVarint_head (n : Nat) :
    (encodeVarint n).head? = some (if n < 128 then n else n % 128 + 128) := by
  rw [encodeVarint_eq]
  split <;> simp

theorem readMessages_wire (tag : List Nat) (msgs : List (List Nat)) (rest : List Nat)
    (h : ∀ m ∈ msgs, m.length ≤ MessageEmitter.MAX_MESSAGE_SIZE) :
    MessageIterator.readMessages tag msgs.length
        (msgs.flatMap (fun m => writeVarint32 m.length ++ m) ++ rest)
      = Except.ok (msgs.map (fun m => (tag, some m)), rest) := by
  induction msgs with
  | nil => simp [MessageIterator.readMessages]
  | cons m ms ih =>
    have hm : m.length ≤ MessageEmitter.MAX_MESSAGE_SIZE := h m (by simp)
    have hm32 : m.length < 2 ^ 32 := by
      have : MessageEmitter.MAX_MESSAGE_SIZE < 2 ^ 32 := by norm_num [MessageEmitter.MAX_MESSAGE_SIZE]
      omega
    have hbytes :
        (m :: ms).flatMap (fun x => writeVarint32 x.length ++ x) ++ rest
          = writeVarint32 m.length ++ (m ++ (ms.flatMap (fun x => writeVarint32 x.length ++ x) ++ rest)) := by
      simp [List.flatMap_cons]
    rw [List.length_cons, MessageIterator.readMessages, hbytes,
      readVarint32_write m.length _ hm32]
    have hnot : ¬ m.length > MessageIterator.MAX_MESSAGE_SIZE := by
      simp only [MessageIterator.MAX_MESSAGE_SIZE]
      simp only [MessageEmitter.MAX_MESSAGE_SIZE] at hm
      omega
    have hle : m.length ≤ (m ++ (ms.flatMap (fun x => writeVarint32 x.length ++ x) ++ rest)).length := by
      simp
    simp only [if_neg hnot, if_pos hle, List.take_left, List.drop_left,
      ih (fun x hx => h x (by simp [hx]))]
    simp

theorem decodeGroups_wire_group (reg : List (List Nat)) (fuel : Nat) (prev tag : List Nat)
    (msgs : List (List Nat)) (rest : List Nat)
    (hreg : Registry.is_valid_tag reg tag = true)
    (htl : tag.length ≤ Registry.MAX_TAG_LENGTH)
    (hm : ∀ m ∈ msgs, m.length ≤ MessageEmitter.MAX_MESSAGE_SIZE)
    (hc : msgs.length + 1 < 2 ^ 64) :
    MessageIterator.decodeGroups reg (fuel + 1) prev (MessageEmitter.groupWire tag msgs ++ rest)
      = (MessageIterator.decodeGroups reg fuel tag rest).map
          (fun tail =>
            (if msgs.isEmpty then [(tag, none)] else msgs.map (fun m => (tag, some m))) ++ tail) := by
  have ht32 : tag.length < 2 ^ 32 := by
    simp only [Registry.MAX_TAG_LENGTH] at htl
    omega
  have hbytes :
      MessageEmitter.groupWire tag msgs ++ rest
        = writeVarint64 (msgs.length + 1) ++ (writeVarint32 tag.length ++ (tag ++
            (msgs.flatMap (fun m => writeVarint32 m.length ++ m) ++ rest))) := by
    simp [MessageEmitter.groupWire]
  rw [MessageIterator.decodeGroups, hbytes, readVarint64_write _ _ hc]
  have hnot : ¬ tag.length > MessageIterator.MAX_MESSAGE_SIZE := by
    simp only [MessageIterator.MAX_MESSAGE_SIZE, Registry.MAX_TAG_LENGTH] at *
    omega
  have hle : tag.length ≤ (tag ++ (msgs.flatMap (fun m => writeVarint32 m.length ++ m) ++ rest)).length := by
    simp
  simp only [readVarint32_write _ _ ht32, if_neg hnot, if_pos hle,
    List.take_left, List.drop_left, MessageIterator.isTagDecision, hreg,
    Bool.or_true, if_pos rfl]
  cases msgs with
  | nil =>
    simp [MessageIterator.readMessages]
  | cons m ms =>
    have h1 : ¬ (m :: ms).length + 1 = 1 := by simp
    have h0 : ¬ (m :: ms).length + 1 = 0 := by simp
    have hsub : (m :: ms).length + 1 - 1 = (m :: ms).length := by omega
    simp only [if_neg h1, if_neg h0, hsub, readMessages_wire tag (m :: ms) rest hm]
    simp

theorem groupWire_length_pos (tag : List Nat) (msgs : List (List Nat)) :
    1 ≤ (MessageEmitter.groupWire tag msgs).length := by
  have h := encodeVarint_ne_nil ((msgs.length + 1) % 2 ^ 64)
  simp only [MessageEmitter.groupWire, writeVarint64, List.append_assoc, List.length_append]
  cases henc : encodeVarint ((msgs.length + 1) % 2 ^ 64) with
  | nil => exact absurd henc h
  | cons a l => simp only [List.length_cons]; omega

theorem wire_length_ge (G : List (List Nat × List (List Nat))) :
    G.length ≤ (MessageEmitter.wire G).length := by
  induction G with
  | nil => simp [MessageEmitter.wire]
  | cons g gs ih =>
    have := groupWire_length_pos g.1 g.2
    simp only [MessageEmitter.wire, List.flatMap_cons, List.length_append, List.length_cons]
    simp only [MessageEmitter.wire] at ih
    omega

theorem decodeGroups_wire (reg : List (List Nat)) (G : List (List Nat × List (List Nat))) :
    ∀ fuel prev, G.length + 1 ≤ fuel →
    (∀ g ∈ G, Registry.is_valid_tag reg g.1 = true ∧ g.1.length ≤ Registry.MAX_TAG_LENGTH) →
    (∀ g ∈ G, ∀ m ∈ g.2, m.length ≤ MessageEmitter.MAX_MESSAGE_SIZE) →
    (∀ g ∈ G, g.2.length + 1 < 2 ^ 64) →
    MessageIterator.decodeGroups reg fuel prev (MessageEmitter.wire G)
      = Except.ok (taggedPairs G) := by
  induction G with
  | nil =>
    intro fuel prev hfuel _ _ _
    obtain ⟨f, rfl⟩ : ∃ f, fuel = f + 1 := ⟨fuel - 1, by omega⟩
    simp [MessageEmitter.wire, MessageIterator.decodeGroups, readVarint64, readVarintAux,
      taggedPairs]
  | cons g gs ih =>
    intro fuel prev hfuel htags hmsgs hcounts
    obtain ⟨f, rfl⟩ : ∃ f, fuel = f + 1 := ⟨fuel - 1, by omega⟩
    have hwire : MessageEmitter.wire (g :: gs)
        = MessageEmitter.groupWire g.1 g.2 ++ MessageEmitter.wire gs := by
      simp [MessageEmitter.wire]
    rw [hwire, decodeGroups_wire_group reg f prev g.1 g.2 (MessageEmitter.wire gs)
      (htags g (by simp)).1 (htags g (by simp)).2 (hmsgs g (by simp)) (hcounts g (by simp))]
    rw [ih f g.1 (by simp at hfuel ⊢; omega)
      (fun x hx => htags x (by simp [hx])) (fun x hx => hmsgs x (by simp [hx]))
      (fun x hx => hcounts x (by simp [hx]))]
    simp [taggedPairs, Except.map]

theorem writeAll_run (tag : List Nat) (maxg : Nat) (msgs : List (List Nat)) :
    ∀ acc, acc.length + msgs.length ≤ maxg →
    (∀ m ∈ msgs, m.length ≤ MessageEmitter.MAX_MESSAGE_SIZE) →
    MessageEmitter.writeAll ⟨tag, acc, maxg⟩ tag msgs
      = ([], ⟨tag, acc ++ msgs, maxg⟩, false) := by
  induction msgs with
  | nil => intro acc _ _; simp [MessageEmitter.writeAll]
  | cons m ms ih =>
    intro acc hlen hsz
    have hwr : MessageEmitter.write ⟨tag, acc, maxg⟩ tag = ([], ⟨tag, acc, maxg⟩) := by
      have hlt : ¬ maxg ≤ acc.length := by
        simp only [List.length_cons] at hlen
        omega
      simp [MessageEmitter.write, MessageEmitter.emit_group, hlt]
    have hm : ¬ m.length > MessageEmitter.MAX_MESSAGE_SIZE := by
      have := hsz m (by simp)
      omega
    rw [MessageEmitter.writeAll]
    simp only [MessageEmitter.write_copy, hwr]
    rw [ih (acc ++ [m]) (by simp at hlen ⊢; omega) (fun x hx => hsz x (by simp [hx]))]
    simp [hm]

theorem emitOneGroup_run (tag : List Nat) (maxg : Nat) (msgs : List (List Nat))
    (htag : tag ≠ []) (hmaxg : 1 ≤ maxg) (hfit : msgs.length ≤ maxg)
    (hsz : ∀ m ∈ msgs, m.length ≤ MessageEmitter.MAX_MESSAGE_SIZE) :
    MessageEmitter.emitOneGroup (MessageEmitter.init maxg) tag msgs
      = (MessageEmitter.groupWire tag msgs, MessageEmitter.init maxg, false) := by
  have hwr : MessageEmitter.write (MessageEmitter.init maxg) tag
      = ([], ⟨tag, [], maxg⟩) := by
    simp only [MessageEmitter.write, MessageEmitter.init, MessageEmitter.emit_group]
    have hcond : ((0 : Nat) ≥ maxg ∨ tag ≠ ([] : List Nat)) := Or.inr htag
    simp [hcond, htag]
  rw [MessageEmitter.emitOneGroup, hwr]
  simp only
  rw [writeAll_run tag maxg msgs [] (by simpa using hfit) hsz]
  simp [MessageEmitter.emit_group, htag, MessageEmitter.init]

theorem emitGroups_run (maxg : Nat) (G : List (List Nat × List (List Nat)))
    (hmaxg : 1 ≤ maxg)
    (htags : ∀ g ∈ G, g.1 ≠ [])
    (hfit : ∀ g ∈ G, g.2.length ≤ maxg)
    (hsz : ∀ g ∈ G, ∀ m ∈ g.2, m.length ≤ MessageEmitter.MAX_MESSAGE_SIZE) :
    MessageEmitter.emitGroups (MessageEmitter.init maxg) G
      = (MessageEmitter.wire G, MessageEmitter.init maxg, false) := by
  induction G with
  | nil => simp [MessageEmitter.emitGroups, MessageEmitter.wire]
  | cons g gs ih =>
    rw [MessageEmitter.emitGroups]
    simp only [emitOneGroup_run g.1 maxg g.2 (htags g (by simp)) hmaxg
      (hfit g (by simp)) (hsz g (by simp))]
    rw [ih (fun x hx => htags x (by simp [hx])) (fun x hx => hfit x (by simp [hx]))
      (fun x hx => hsz x (by simp [hx]))]
    simp [MessageEmitter.wire]

/-- C1: for every finite sequence of groups with registered tags of 1 to 25
bytes and messages of at most MAX_MESSAGE_SIZE bytes, encoding with the
group emitter (no write throws) and decoding with the group iterator yields
exactly the original sequence of tagged pairs in order, with tag-only groups
round-tripping as a tag with no data, in both compress modes (the BGZF
layer transports the framed bytes unchanged). -/
theorem C1_roundtrip (reg : List (List Nat)) (G : List (List Nat × List (List Nat)))
    (compress : Bool) (max_group_size : Nat)
    (hmaxg : 1 ≤ max_group_size)
    (hfit : ∀ g ∈ G, g.2.length ≤ max_group_size)
    (htag : ∀ g ∈ G, Registry.is_valid_tag reg g.1 = true ∧
      1 ≤ g.1.length ∧ g.1.length ≤ Registry.MAX_TAG_LENGTH)
    (hmsg : ∀ g ∈ G, ∀ m ∈ g.2, m.length ≤ MessageEmitter.MAX_MESSAGE_SIZE)
    (hcount : ∀ g ∈ G, g.2.length + 1 < 2 ^ 64) :
    (MessageEmitter.encode max_group_size G).2.2 = false ∧
    MessageIterator.decode reg
        (bgzfTransport compress (MessageEmitter.encode max_group_size G).1)
      = Except.ok (taggedPairs G) := by
  have htne : ∀ g ∈ G, g.1 ≠ [] := by
    intro g hg h
    have := (htag g hg).2.1
    rw [h] at this
    simp at this
  have hrun := emitGroups_run max_group_size G hmaxg htne hfit hmsg
  rw [MessageEmitter.encode, hrun]
  refine ⟨rfl, ?_⟩
  rw [bgzfTransport, MessageIterator.decode]
  dsimp only
  exact decodeGroups_wire reg G _ []
    (by have := wire_length_ge G; omega)
    (fun g hg => ⟨(htag g hg).1, (htag g hg).2.2⟩) hmsg hcount

theorem C1_roundtrip_witness :
    (1 ≤ 1000 ∧
      (∀ g ∈ [([86, 71], [[1, 2], [3]]), ([86, 71], ([] : List (List Nat)))],
        g.2.length ≤ 1000)) ∧
    ((MessageEmitter.encode 1000 [([86, 71], [[1, 2], [3]]), ([86, 71], [])]).2.2 = false ∧
      MessageIterator.decode [[86, 71]]
          (bgzfTransport true
            (MessageEmitter.encode 1000 [([86, 71], [[1, 2], [3]]), ([86, 71], [])]).1)
        = Except.ok (taggedPairs [([86, 71], [[1, 2], [3]]), ([86, 71], [])])) :=
  ⟨⟨by decide, by decide⟩,
    C1_roundtrip [[86, 71]] [([86, 71], [[1, 2], [3]]), ([86, 71], [])] true 1000
      (by decide) (by decide) (by decide) (by decide) (by decide)⟩

theorem take_two_varints_ne_magic (a b : Nat) (rest : List Nat) (hb : b < 128) :
    (encodeVarint a ++ (encodeVarint b ++ rest)).take 2 ≠ [0x1F, 0x8B] := by
  rw [encodeVarint_eq]
  by_cases ha : a < 128
  · rw [if_pos ha]
    conv_lhs => rw [encodeVarint_eq, if_pos hb]
    intro h
    simp only [List.cons_append, List.nil_append, List.take_cons, List.take] at h
    obtain ⟨h1, h2, -⟩ := by simpa using h
    omega
  · rw [if_neg ha]
    intro h
    simp only [List.cons_append, List.take_cons] at h
    have h1 : a % 128 + 128 = 0x1F := by simpa using congrArg List.head? h
    omega

/-- C2: the first two wire bytes of any emitted group never form the gzip
magic 1F 8B: stated both for the raw pair of a count varint64 with count at
least 1 followed by a tag-length varint32 with length 1 to 25, and for the
wire encoding the emitter produces for a group with a 1-to-25-byte tag. -/
theorem C2_no_gzip_magic (count tag_len : Nat) (rest : List Nat)
    (tag : List Nat) (msgs : List (List Nat))
    (hcount : 1 ≤ count) (htl1 : 1 ≤ tag_len) (htl2 : tag_len ≤ Registry.MAX_TAG_LENGTH)
    (ht1 : 1 ≤ tag.length) (ht2 : tag.length ≤ Registry.MAX_TAG_LENGTH) :
    (writeVarint64 count ++ writeVarint32 tag_len ++ rest).take 2 ≠ [0x1F, 0x8B] ∧
    (MessageEmitter.groupWire tag msgs).take 2 ≠ [0x1F, 0x8B] := by
  have h32 : (2 : Nat) ^ 32 = 4294967296 := by norm_num
  constructor
  · have hb : tag_len % 2 ^ 32 < 128 := by
      simp only [Registry.MAX_TAG_LENGTH] at htl2
      have : tag_len % 2 ^ 32 ≤ tag_len := Nat.mod_le _ _
      omega
    have := take_two_varints_ne_magic (count % 2 ^ 64) (tag_len % 2 ^ 32) rest hb
    simpa [writeVarint64, writeVarint32, List.append_assoc] using this
  · have hb : tag.length % 2 ^ 32 < 128 := by
      simp only [Registry.MAX_TAG_LENGTH] at ht2
      have : tag.length % 2 ^ 32 ≤ tag.length := Nat.mod_le _ _
      omega
    have := take_two_varints_ne_magic ((msgs.length + 1) % 2 ^ 64) (tag.length % 2 ^ 32)
      (tag ++ msgs.flatMap (fun m => writeVarint32 m.length ++ m)) hb
    simpa [MessageEmitter.groupWire, writeVarint64, writeVarint32, List.append_assoc] using this

/-- C3 counterexample: c3stream is uncompressed well-formed type-tagged data
in the claim sense (count varint at least 1, tag length 1 to 25, full tag
present), its tag is registered, and the iterator itself decodes it as that
single tag-only group; yet sniff_tag returns the empty string, because the
prologue needs 41 bytes and the sniff buffer holds 40.  The stream position
is restored as claimed. -/
theorem C3_counterexample :
    MessageIterator.claimWellFormed c3stream = true ∧
    MessageIterator.claimFirstTag c3stream = List.replicate 25 65 ∧
    Registry.is_valid_tag c3registry (MessageIterator.claimFirstTag c3stream) = true ∧
    MessageIterator.decode c3registry c3stream
      = Except.ok [(List.replicate 25 65, none)] ∧
    (MessageIterator.sniff_tag c3registry { data := c3stream, pos := 0 }).1 = [] ∧
    (MessageIterator.sniff_tag c3registry { data := c3stream, pos := 0 }).2
      = { data := c3stream, pos := 0 } :=
  ⟨rfl, rfl, rfl, rfl, rfl, rfl⟩

/-- C3 amended: sniff_tag always restores the stream position, and it
returns the tag of the first group exactly when the group prologue is
well-formed within the 40-byte sniff window (count varint at least 1, tag
length 1 to MAX_TAG_LENGTH, full tag inside the window) and the tag is
registered; in every other case it returns the empty string. -/
theorem C3_sniff_amended (reg : List (List Nat)) (st : MessageIterator.CppStream) :
    (MessageIterator.sniff_tag reg st).2 = st ∧
    (MessageIterator.sniff_tag reg st).1 =
      (if MessageIterator.claimWellFormed (MessageIterator.sniff_window st) &&
          Registry.is_valid_tag reg
            (MessageIterator.claimFirstTag (MessageIterator.sniff_window st))
       then MessageIterator.claimFirstTag (MessageIterator.sniff_window st)
       else []) := by
  constructor
  · obtain ⟨data, pos⟩ := st
    simp [MessageIterator.sniff_tag]
  · rw [MessageIterator.sniff_tag]
    dsimp only
    generalize MessageIterator.sniff_window st = w
    rcases h64 : readVarint64 w with - | ⟨count, r1⟩
    · simp [MessageIterator.sniff_parse, MessageIterator.claimWellFormed,
        MessageIterator.claimFirstTag, h64]
    · rcases h32 : readVarint32 r1 with - | ⟨ts, r2⟩
      · by_cases hc : count < 1 <;>
          simp [MessageIterator.sniff_parse, MessageIterator.claimWellFormed,
            MessageIterator.claimFirstTag, h64, h32, hc]
      · by_cases hc : count < 1
        · have hc1 : ¬ 1 ≤ count := by omega
          simp [MessageIterator.sniff_parse, MessageIterator.claimWellFormed,
            MessageIterator.claimFirstTag, h64, h32, hc, hc1]
        · have hc1 : 1 ≤ count := by omega
          by_cases hts0 : ts = 0
          · simp [MessageIterator.sniff_parse, MessageIterator.claimWellFormed,
              MessageIterator.claimFirstTag, h64, h32, hc, hc1, hts0]
          · have h1 : 1 ≤ ts := by omega
            by_cases htsl : ts > Registry.MAX_TAG_LENGTH
            · have h2 : ¬ ts ≤ Registry.MAX_TAG_LENGTH := by omega
              simp [MessageIterator.sniff_parse, MessageIterator.claimWellFormed,
                MessageIterator.claimFirstTag, h64, h32, hc, hc1, hts0, htsl, h2]
            · have h2 : ts ≤ Registry.MAX_TAG_LENGTH := by omega
              by_cases htr : ts ≤ r2.length
              · by_cases hv : Registry.is_valid_tag reg (r2.take ts) = true <;>
                  simp [MessageIterator.sniff_parse, MessageIterator.claimWellFormed,
                    MessageIterator.claimFirstTag, h64, h32, hc, hc1, hts0, htsl,
                    h1, h2, htr, hv]
              · simp [MessageIterator.sniff_parse, MessageIterator.claimWellFormed,
                  MessageIterator.claimFirstTag, h64, h32, hc, hc1, hts0, htsl,
                  h1, h2, htr]

/-- C4 counterexample: with an empty registry, after seek_group to offset 0
the group there has first string AB, which is not registered, yet it is
treated as a tag (the value is the pair AB with no data) because it equals
the previous tag cached before the seek: the decision is not made purely by
the registry, and the cached tag is not cleared by the seek. -/
theorem C4_counterexample :
    (MessageIterator.seek_group [] c4state 0).map (fun p => (p.1, p.2.value)) =
      Except.ok (true, ([65, 66], none)) ∧
    Registry.is_valid_tag [] [65, 66] = false ∧
    (MessageIterator.seek_group [] c4state 0).map (fun p => p.2.previous_tag) =
      Except.ok [65, 66] :=
  ⟨rfl, rfl, rfl⟩

/-- C4 amended: a successful seek_group(vo) seeks the underlying BGZF stream
to vo, resets the group state to empty, and advances there, carrying the
cached previous tag into the advance unchanged rather than clearing it; the
tag decision at the target uses equality with that cached tag as well as the
registry, but whenever the cached tag is itself registered or empty (as it
is in every state reachable under a fixed registry that does not register
the empty tag), the decision coincides with pure registry membership. -/
theorem C4_seek_group (reg : List (List Nat)) (s : MessageIterator.Iter) (vo : Int)
    (hseek : s.bgzip_in.seekable = true)
    (hvo : 0 ≤ vo)
    (hnot : ¬ (s.group_idx = 0 ∧ s.group_vo = vo))
    (hprev : s.previous_tag = [] ∨ Registry.is_valid_tag reg s.previous_tag = true)
    (hempty : Registry.is_valid_tag reg [] = false) :
    MessageIterator.seek_group reg s vo =
      (MessageIterator.step reg
        { s with bgzip_in := { s.bgzip_in with pos := vo.toNat },
                 group_count := 0, group_idx := 0 }).map (fun s2 => (true, s2)) ∧
    (∀ t, MessageIterator.isTagDecision s.previous_tag t reg
        = Registry.is_valid_tag reg t) := by
  constructor
  · rw [MessageIterator.seek_group]
    have h1 : ¬ vo < 0 := by omega
    rw [if_neg h1, if_neg hnot]
    have hs : s.bgzip_in.Seek vo = some { s.bgzip_in with pos := vo.toNat } := by
      simp [MessageIterator.BGZFStream.Seek, hseek]
    rw [hs]
    have hm : ∀ (e : Except String MessageIterator.Iter),
        (match e with
         | Except.ok s2 => Except.ok (true, s2)
         | Except.error err => Except.error err) = e.map (fun s2 => (true, s2)) := by
      intro e
      cases e <;> rfl
    exact hm _
  · intro t
    rw [MessageIterator.isTagDecision]
    rcases hprev with h | h
    · simp [h]
    · have hne : s.previous_tag ≠ [] := by
        intro hh
        rw [hh, hempty] at h
        exact Bool.false_ne_true h
      by_cases he : s.previous_tag = t
      · subst he
        simp [hne, h]
      · simp [hne, he]

theorem C4_seek_group_witness :
    ((c4witness.bgzip_in.seekable = true) ∧ (0 : Int) ≤ 0 ∧
      ¬ (c4witness.group_idx = 0 ∧ c4witness.group_vo = 0) ∧
      Registry.is_valid_tag [[86]] c4witness.previous_tag = true ∧
      Registry.is_valid_tag [[86]] [] = false) ∧
    MessageIterator.seek_group [[86]] c4witness 0 =
      (MessageIterator.step [[86]]
        { c4witness with bgzip_in := { c4witness.bgzip_in with pos := (0 : Int).toNat },
                         group_count := 0, group_idx := 0 }).map (fun s2 => (true, s2)) ∧
    MessageIterator.isTagDecision c4witness.previous_tag [70] [[86]]
      = Registry.is_valid_tag [[86]] [70] :=
  ⟨⟨by decide, by decide, by decide, by decide, by decide⟩,
    (C4_seek_group [[86]] c4witness 0 (by decide) (by decide) (by decide)
      (Or.inr (by decide)) (by decide)).1,
    (C4_seek_group [[86]] c4witness 0 (by decide) (by decide) (by decide)
      (Or.inr (by decide)) (by decide)).2 [70]⟩

theorem C2_no_gzip_magic_witness :
    (1 ≤ 1 ∧ 1 ≤ 2 ∧ 2 ≤ Registry.MAX_TAG_LENGTH ∧
      1 ≤ [86, 71].length ∧ [86, 71].length ≤ Registry.MAX_TAG_LENGTH) ∧
    ((writeVarint64 1 ++ writeVarint32 2 ++ [86, 71]).take 2 ≠ [0x1F, 0x8B] ∧
      (MessageEmitter.groupWire [86, 71] [[5]]).take 2 ≠ [0x1F, 0x8B]) :=
  ⟨by decide,
    C2_no_gzip_magic 1 2 [86, 71] [86, 71] [[5]]
      (by decide) (by decide) (by decide) (by decide) (by decide)⟩

/-- C5 counterexample: with the spec default batch_size of 512 (an even
batch size), the adaptive cap does not start at batch_size: the
for_each_parallel_impl initial state sets it to 256. -/
theorem C5_counterexample :
    ForEachParallel.initPipeline.max_batches_outstanding = 256 ∧
    ForEachParallel.initPipeline.max_batches_outstanding ≠ 512 := by
  decide

theorem finish_inline_batch_cap_dvd (s : ForEachParallel.PipelineState) (d : Bool)
    (h : 0 < s.max_batches_outstanding ∧ s.max_batches_outstanding ∣ 8192) :
    0 < (ForEachParallel.finish_inline_batch s d).max_batches_outstanding ∧
    (ForEachParallel.finish_inline_batch s d).max_batches_outstanding ∣ 8192 := by
  obtain ⟨hpos, hdvd⟩ := h
  rw [ForEachParallel.finish_inline_batch]
  dsimp only
  split
  · rename_i hcond
    have h13 : (8192 : Nat) = 2 ^ 13 := by norm_num
    obtain ⟨k, hk, hm⟩ := (Nat.dvd_prime_pow Nat.prime_two).mp (h13 ▸ hdvd)
    have hlt : s.max_batches_outstanding < 8192 := by
      have := hcond.2.1
      simpa [ForEachParallel.max_max_batches_outstanding] using this
    have hklt : k < 13 := by
      by_contra hc
      have hk13 : k = 13 := by omega
      rw [hm, hk13] at hlt
      norm_num at hlt
    constructor
    · omega
    · rw [hm, h13]
      have : 2 ^ k * 2 = 2 ^ (k + 1) := by ring
      rw [this]
      exact pow_dvd_pow 2 (by omega)
  · exact ⟨hpos, hdvd⟩

theorem runInlineBatches_cap_dvd (flags : List Bool) :
    ∀ s : ForEachParallel.PipelineState,
      0 < s.max_batches_outstanding ∧ s.max_batches_outstanding ∣ 8192 →
      0 < (flags.foldl ForEachParallel.finish_inline_batch s).max_batches_outstanding ∧
      (flags.foldl ForEachParallel.finish_inline_batch s).max_batches_outstanding ∣ 8192 := by
  induction flags with
  | nil => intro s h; simpa using h
  | cons d ds ih =>
    intro s h
    simpa using ih (ForEachParallel.finish_inline_batch s d)
      (finish_inline_batch_cap_dvd s d h)

/-- C5 amended: the adaptive cap max_batches_outstanding starts at 256 (not
at batch_size); it doubles exactly when the main thread finishes a batch
inline while the decremented batches_outstanding is below 3/4 of the cap,
the cap is below 8192, and the inline processing was not forced by
parallel_allowed() being false; it never doubles on a forced-single-threaded
batch; and over any run from the initial state it never exceeds 8192. -/
theorem C5_batch_cap (s : ForEachParallel.PipelineState) (d : Bool) (flags : List Bool) :
    ForEachParallel.initPipeline.max_batches_outstanding = 256 ∧
    ((ForEachParallel.finish_inline_batch s d).max_batches_outstanding
       = if 4 * (s.batches_outstanding - 1) < 3 * s.max_batches_outstanding ∧
            s.max_batches_outstanding < 8192 ∧ d = false
         then s.max_batches_outstanding * 2
         else s.max_batches_outstanding) ∧
    (ForEachParallel.finish_inline_batch s true).max_batches_outstanding
      = s.max_batches_outstanding ∧
    (ForEachParallel.runInlineBatches flags).max_batches_outstanding ≤ 8192 := by
  refine ⟨rfl, ?_, ?_, ?_⟩
  · have hiff : (4 * (s.batches_outstanding - 1) / 3 < s.max_batches_outstanding ∧
        s.max_batches_outstanding < ForEachParallel.max_max_batches_outstanding ∧ d = false)
        ↔ (4 * (s.batches_outstanding - 1) < 3 * s.max_batches_outstanding ∧
           s.max_batches_outstanding < 8192 ∧ d = false) := by
      simp only [ForEachParallel.max_max_batches_outstanding]
      constructor
      · rintro ⟨a, b, c⟩
        exact ⟨by omega, b, c⟩
      · rintro ⟨a, b, c⟩
        exact ⟨by omega, b, c⟩
    rw [ForEachParallel.finish_inline_batch]
    dsimp only
    rw [if_congr hiff rfl rfl]
  · rw [ForEachParallel.finish_inline_batch]
    dsimp only
    rw [if_neg]
    rintro ⟨-, -, h⟩
    exact Bool.noConfusion h
  · have h := runInlineBatches_cap_dvd flags ForEachParallel.initPipeline
      ⟨by decide, by decide⟩
    exact Nat.le_of_dvd (by norm_num) h.2

theorem take_loop_skip (check : List Nat → Bool) :
    ∀ items : List (List Nat × Option (List Nat)),
      ForEachParallel.take_loop check false items
        = Except.ok (items.filterMap (fun p => if check p.1 then p.2 else none)) := by
  intro items
  induction items with
  | nil => rfl
  | cons p rest ih =>
    obtain ⟨t, d⟩ := p
    by_cases hc : check t = false
    · simp [ForEachParallel.take_loop, hc, ih]
    · rw [Bool.not_eq_false] at hc
      cases d <;> simp [ForEachParallel.take_loop, hc, ih]

/-- C6: when the very first item taken from the iterator fails
check_protobuf_tag for the requested type, the pipeline raises a fatal
error; when the first item passes, every later item that fails the check is
silently skipped, and the collected message bodies are exactly those of the
items whose tag checks out, in order. -/
theorem C6_tag_policy (ttp : List (List Nat × Nat)) (full_name : Nat → List Nat) (M : Nat)
    (items : List (List Nat × Option (List Nat)))
    (tag : List Nat) (data : Option (List Nat)) (rest : List (List Nat × Option (List Nat)))
    (hitems : items = (tag, data) :: rest) :
    (Registry.check_protobuf_tag ttp full_name M tag = false →
      ForEachParallel.take_loop (Registry.check_protobuf_tag ttp full_name M) true items
        = Except.error "expected a stream of the requested type") ∧
    (Registry.check_protobuf_tag ttp full_name M tag = true →
      ForEachParallel.take_loop (Registry.check_protobuf_tag ttp full_name M) true items
        = Except.ok (items.filterMap
            (fun p => if Registry.check_protobuf_tag ttp full_name M p.1 then p.2 else none))) := by
  subst hitems
  constructor
  · intro hfail
    simp [ForEachParallel.take_loop, hfail]
  · intro hok
    cases data <;>
      simp [ForEachParallel.take_loop, hok,
        take_loop_skip (Registry.check_protobuf_tag ttp full_name M) rest]

theorem C6_tag_policy_witness :
    Registry.check_protobuf_tag [([86, 71], 7)] (fun _ => [80]) 7 [86, 71] = true ∧
    ForEachParallel.take_loop (Registry.check_protobuf_tag [([86, 71], 7)] (fun _ => [80]) 7) true
        [([86, 71], some [1]), ([88], some [2]), ([86, 71], none), ([], some [3])]
      = Except.ok [[1], [3]] :=
  ⟨by decide,
    (C6_tag_policy [([86, 71], 7)] (fun _ => [80]) 7
        [([86, 71], some [1]), ([88], some [2]), ([86, 71], none), ([], some [3])]
        [86, 71] (some [1]) [([88], some [2]), ([86, 71], none), ([], some [3])] rfl).2
      (by decide)⟩

/-- C7: constructing a BlockedGzipInputStream fails with the distinct
TruncatedBGZFError exactly when the source is BGZF, seekable, and missing
the conventional empty terminator block, and MissingEOF() is true in exactly
the same cases. -/
theorem C7_truncation (src : BlockedGzipInputStream.SourceStream) :
    (BlockedGzipInputStream.construct src
        = Except.error BlockedGzipInputStream.BGZFError.TruncatedBGZFError
      ↔ (src.compression = 2 ∧ src.seekable = true ∧ src.has_eof_block = false)) ∧
    (BlockedGzipInputStream.MissingEOF src = true
      ↔ (src.compression = 2 ∧ src.seekable = true ∧ src.has_eof_block = false)) := by
  obtain ⟨sk, cp, eof⟩ := src
  have hMis : BlockedGzipInputStream.MissingEOF ⟨sk, cp, eof⟩ = true
      ↔ (cp = 2 ∧ sk = true ∧ eof = false) := by
    cases sk <;> cases eof <;>
      simp [BlockedGzipInputStream.MissingEOF, BlockedGzipInputStream.IsBGZF,
        BlockedGzipInputStream.bgzf_check_EOF]
  refine ⟨?_, by simpa using hMis⟩
  by_cases hm : BlockedGzipInputStream.MissingEOF ⟨sk, cp, eof⟩ = true
  · simp only [BlockedGzipInputStream.construct, hm, if_true]
    simpa using hMis.mp hm
  · rw [hMis] at hm
    simp only [BlockedGzipInputStream.construct]
    rw [if_neg (by rw [hMis]; exact hm)]
    simpa using hm

/-- C8: register_breakpoint with at least MIN_QUEUE_ITEM_BYTES (640 KiB) of
pending data pushes the whole buffer as one item onto the back of the ring,
adds its size to the queued byte count, and resets the buffer and the
breakpoint cursor; with less pending data it queues nothing and only moves
the cursor to the current buffer length. -/
theorem C8_register_breakpoint (s : StreamMultiplexer.ProducerState) :
    (StreamMultiplexer.MIN_QUEUE_ITEM_BYTES ≤ s.current_buffer.length →
      StreamMultiplexer.register_breakpoint s =
        { current_buffer := [], breakpoint_cursor := 0,
          ring := s.ring ++ [s.current_buffer],
          queued_bytes := s.queued_bytes + s.current_buffer.length }) ∧
    (s.current_buffer.length < StreamMultiplexer.MIN_QUEUE_ITEM_BYTES →
      StreamMultiplexer.register_breakpoint s =
        { s with breakpoint_cursor := s.current_buffer.length }) ∧
    StreamMultiplexer.MIN_QUEUE_ITEM_BYTES = 640 * 1024 := by
  refine ⟨?_, ?_, by norm_num [StreamMultiplexer.MIN_QUEUE_ITEM_BYTES]⟩
  · intro h
    simp [StreamMultiplexer.register_breakpoint, h]
  · intro h
    have hn : ¬ StreamMultiplexer.MIN_QUEUE_ITEM_BYTES ≤ s.current_buffer.length := by omega
    simp [StreamMultiplexer.register_breakpoint, hn]

theorem C8_register_breakpoint_witness :
    ([1, 2, 3] : List Nat).length < StreamMultiplexer.MIN_QUEUE_ITEM_BYTES ∧
    StreamMultiplexer.register_breakpoint
        { current_buffer := [1, 2, 3], breakpoint_cursor := 7, ring := [[9]], queued_bytes := 4 }
      = { current_buffer := [1, 2, 3], breakpoint_cursor := 3, ring := [[9]], queued_bytes := 4 } :=
  ⟨by decide,
    (C8_register_breakpoint
        { current_buffer := [1, 2, 3], breakpoint_cursor := 7, ring := [[9]], queued_bytes := 4 }).2.1
      (by decide)⟩

/-- C9 at the failing input: writing the one-byte message m under the empty
tag does not throw and leaves the message buffered under the empty tag;
emit_group at that point writes nothing (no empty-tag group and no zero
count is ever emitted); but after a following write of message n under tag
T, emit_group writes the single group 03 01 54 01 6D 01 6E: count 3, tag T,
and both messages, including the one the empty-tag write was supposed to
have rejected. -/
theorem C9_empty_tag_not_rejected :
    (MessageEmitter.write_copy (MessageEmitter.init 1000) [] [109]).2.2 = false ∧
    (MessageEmitter.write_copy (MessageEmitter.init 1000) [] [109]).2.1
      = { group_tag := [], group := [[109]], max_group_size := 1000 } ∧
    (MessageEmitter.emit_group
        (MessageEmitter.write_copy (MessageEmitter.init 1000) [] [109]).2.1).1 = [] ∧
    (MessageEmitter.emit_group
        (MessageEmitter.write_copy
          (MessageEmitter.write_copy (MessageEmitter.init 1000) [] [109]).2.1
          [84] [110]).2.1).1
      = [3, 1, 84, 1, 109, 1, 110] := by
  decide

/-- C10: a write of a message longer than MAX_MESSAGE_SIZE throws, but only
after the message has been appended to the group buffer, so the failing
call changes the buffered-group state; a subsequent emit_group (hence also
flush or destruction, which call it) writes the oversized message into the
output. -/
theorem C10_oversized_buffered (s : MessageEmitter.State) (tag msg : List Nat)
    (hover : MessageEmitter.MAX_MESSAGE_SIZE < msg.length) :
    (MessageEmitter.write_copy s tag msg).2.2 = true ∧
    (MessageEmitter.write_copy s tag msg).2.1.group
      = (MessageEmitter.write s tag).2.group ++ [msg] ∧
    (tag ≠ [] → ∃ pre post,
      (MessageEmitter.emit_group (MessageEmitter.write_copy s tag msg).2.1).1
        = pre ++ msg ++ post) := by
  have hadopt : ∀ r : List Nat × MessageEmitter.State,
      (if tag ≠ r.2.group_tag then (r.1, { r.2 with group_tag := tag }) else r).2.group_tag
        = tag := by
    intro r
    split
    · rfl
    · rename_i h
      exact (not_not.mp h).symm
  have hgt : (MessageEmitter.write s tag).2.group_tag = tag := by
    rw [MessageEmitter.write]
    exact hadopt _
  refine ⟨by simp [MessageEmitter.write_copy, hover], by simp [MessageEmitter.write_copy], ?_⟩
  intro htag
  have hs2tag : (MessageEmitter.write_copy s tag msg).2.1.group_tag = tag := by
    simp [MessageEmitter.write_copy, hgt]
  have hs2grp : (MessageEmitter.write_copy s tag msg).2.1.group
      = (MessageEmitter.write s tag).2.group ++ [msg] := by
    simp [MessageEmitter.write_copy]
  rw [MessageEmitter.emit_group, hs2tag, if_neg htag, hs2grp]
  refine ⟨writeVarint64 (((MessageEmitter.write s tag).2.group ++ [msg]).length + 1) ++
    writeVarint32 tag.length ++ tag ++
    (MessageEmitter.write s tag).2.group.flatMap (fun m => writeVarint32 m.length ++ m) ++
    writeVarint32 msg.length, [], ?_⟩
  simp [MessageEmitter.groupWire, List.flatMap_append, List.append_assoc]

theorem C10_oversized_buffered_witness :
    MessageEmitter.MAX_MESSAGE_SIZE < (List.replicate 1000000001 (0 : Nat)).length ∧
    ((MessageEmitter.write_copy (MessageEmitter.init 1000) [84]
        (List.replicate 1000000001 0)).2.2 = true ∧
      (MessageEmitter.write_copy (MessageEmitter.init 1000) [84]
          (List.replicate 1000000001 0)).2.1.group
        = (MessageEmitter.write (MessageEmitter.init 1000) [84]).2.group
            ++ [List.replicate 1000000001 0] ∧
      (([84] : List Nat) ≠ [] → ∃ pre post,
        (MessageEmitter.emit_group
            (MessageEmitter.write_copy (MessageEmitter.init 1000) [84]
              (List.replicate 1000000001 0)).2.1).1
          = pre ++ List.replicate 1000000001 0 ++ post)) :=
  ⟨by rw [List.length_replicate]; norm_num [MessageEmitter.MAX_MESSAGE_SIZE],
    C10_oversized_buffered (MessageEmitter.init 1000) [84] (List.replicate 1000000001 0)
      (by rw [List.length_replicate]; norm_num [MessageEmitter.MAX_MESSAGE_SIZE])⟩

end VGio
